import Mathlib

/-!
# Starcamp Interview — verification of the Interview Session Runtime

Shallow embedding of the score/lifecycle/aggregation logic of the
starcamp-interview repository:

* server: `ScoreService.upsertScore`, `ScoreService.getScoresForInterview`
  (src/server/src/services/score-service.ts), `ScoreController.upsert`
  (src/server/src/controllers/score-controller.ts),
  `InterviewService.startInterview` / `completeInterview`
  (src/server/src/services/interview-service.ts), and the Prisma schema
  constraints of prisma/migrations/20260211134558_init/migration.sql;
* client: `SectionTimer` (section-timer.tsx), `saveScores` /
  `handleNextSection` of the live interview page, `getOverallScore` of the
  interview list page, the aggregation block of the results page, and the
  duplicated aggregation blocks of `ExportService.generateExcel` /
  `generatePdf` (src/server/src/services/export-service.ts).

JavaScript numbers are embedded as `ℚ` where a request payload may carry an
arbitrary number (`Number.isInteger(q)` becomes `q.den = 1`), database
integer columns as `ℤ`, and wall-clock instants (milliseconds since epoch)
as `ℤ`.  `undefined`/nullable fields are `Option`s.  A JavaScript `Map`
built from an entry list keeps the *last* entry for a duplicated key, which
`jsMapLookup` reproduces.
-/

namespace Starcamp

/-- `SessionStatus` enum of the Prisma schema (migration.sql). -/
inductive SessionStatus
  | SETUP
  | IN_PROGRESS
  | COMPLETED
  | CANCELLED
deriving DecidableEq, Repr

/-- A row of the `InterviewSession` table (the fields the claims touch). -/
structure InterviewSession where
  id : String
  interviewerId : String
  status : SessionStatus
deriving DecidableEq, Repr

/-- A row of the `Question` table (the fields the claims touch). -/
structure QuestionRow where
  id : String
  sectionId : String
deriving DecidableEq, Repr

/-- A row of the `InterviewQuestion` table: the session's question selection. -/
structure InterviewQuestionRow where
  interviewId : String
  questionId : String
  order : Int
deriving DecidableEq, Repr

/-- A row of the `Score` table: integer `score` column, nullable `notes`. -/
structure ScoreRow where
  interviewId : String
  questionId : String
  score : Int
  notes : Option String
deriving DecidableEq, Repr

/-- The slice of the database the score/lifecycle claims read and write. -/
structure Db where
  sessions : List InterviewSession
  questions : List QuestionRow
  interviewQuestions : List InterviewQuestionRow
  scores : List ScoreRow
deriving DecidableEq, Repr

/-- `prisma.score.upsert` restricted to the table contents: look the row up
by the unique key `(interviewId, questionId)` (unique index
`Score_interviewId_questionId_key` of migration.sql); update `score` on a
hit — `notes` only when the payload carries it, Prisma skips an `undefined`
field — and insert a fresh row on a miss. Returns the row it wrote. -/
def prismaScoreUpsert (scores : List ScoreRow) (interviewId questionId : String)
    (score : Int) (notes : Option String) : ScoreRow × List ScoreRow :=
  match scores.find? (fun r => r.interviewId = interviewId ∧ r.questionId = questionId) with
  | some old =>
      let updated : ScoreRow :=
        { old with score := score,
                   notes := match notes with | some n => some n | none => old.notes }
      (updated,
        scores.map (fun r =>
          if r.interviewId = interviewId ∧ r.questionId = questionId then updated else r))
  | none =>
      let created : ScoreRow :=
        { interviewId := interviewId, questionId := questionId, score := score, notes := notes }
      (created, scores ++ [created])

/-- `ScoreService.upsertScore` (score-service.ts): the Prisma upsert, guarded
by the foreign keys of migration.sql — `Score.interviewId` must reference an
`InterviewSession` row and `Score.questionId` a `Question` row; a violation
makes Prisma throw, embedded as `none`.  No check against the session's
`InterviewQuestion` selection and no check of the session's status exist on
this path. -/
def ScoreService.upsertScore (db : Db) (interviewId questionId : String)
    (score : Int) (notes : Option String) : Option (ScoreRow × Db) :=
  if db.sessions.any (fun s => s.id = interviewId) ∧
      db.questions.any (fun q => q.id = questionId) then
    let (row, scores) := prismaScoreUpsert db.scores interviewId questionId score notes
    some (row, { db with scores := scores })
  else
    none

/-- `ScoreService.getScoresForInterview` (score-service.ts):
`prisma.score.findMany({ where: { interviewId } })`. -/
def ScoreService.getScoresForInterview (db : Db) (interviewId : String) : List ScoreRow :=
  db.scores.filter (fun r => r.interviewId = interviewId)

/-- The responses `ScoreController.upsert` can produce (score-controller.ts):
400 for missing fields, 400 for an out-of-range or non-integer score, 404,
403, 500 when the service throws, and the upserted row on success. -/
inductive UpsertResponse
  | missingFields
  | invalidScore
  | notFound
  | unauthorized
  | serverError
  | ok (row : ScoreRow)
deriving DecidableEq, Repr

/-- The request body of `POST /api/scores`: `score` is an arbitrary JSON
number (or absent), `notes` optional. -/
structure UpsertRequest where
  interviewId : String
  questionId : String
  score : Option ℚ
  notes : Option String
deriving DecidableEq, Repr

/-- `ScoreController.upsert` (score-controller.ts), with `req.userId` the
authenticated caller.  In source order: presence check (`!interviewId`
treats the empty string as missing), `Number.isInteger(score) && 1 ≤ score ≤ 5`,
session existence, ownership, then `ScoreService.upsertScore`. -/
def ScoreController.upsert (db : Db) (userId : String) (req : UpsertRequest) :
    UpsertResponse × Db :=
  if req.interviewId = "" ∨ req.questionId = "" ∨ req.score = none then
    (.missingFields, db)
  else
    match req.score with
    | none => (.missingFields, db)
    | some s =>
      if ¬ (s.den = 1 ∧ 1 ≤ s ∧ s ≤ 5) then
        (.invalidScore, db)
      else
        match db.sessions.find? (fun iv => iv.id = req.interviewId) with
        | none => (.notFound, db)
        | some interview =>
          if interview.interviewerId ≠ userId then
            (.unauthorized, db)
          else
            match ScoreService.upsertScore db req.interviewId req.questionId s.num req.notes with
            | none => (.serverError, db)
            | some (row, db') => (.ok row, db')

/-- The outcomes of `InterviewService.startInterview` / `completeInterview`
(interview-service.ts): `notFound` for `throw Error('Interview not found')`,
`unauthorized` for the ownership throw, `invalidTransition` for the
status-guard throw (`'Can only start interviews in SETUP status'` /
`'Can only complete interviews in IN_PROGRESS status'`), and the updated
session on success. -/
inductive TransitionResponse
  | notFound
  | unauthorized
  | invalidTransition
  | ok (session : InterviewSession)
deriving DecidableEq, Repr

/-- Replace the session row `id` by `session` (`prisma.interviewSession.update`). -/
def updateSession (db : Db) (id : String) (session : InterviewSession) : Db :=
  { db with sessions := db.sessions.map (fun s => if s.id = id then session else s) }

/-- `InterviewService.startInterview` (interview-service.ts): legal only from
`SETUP`, only for the owner; sets status `IN_PROGRESS`. -/
def InterviewService.startInterview (db : Db) (id userId : String) :
    TransitionResponse × Db :=
  match db.sessions.find? (fun iv => iv.id = id) with
  | none => (.notFound, db)
  | some interview =>
    if interview.interviewerId ≠ userId then (.unauthorized, db)
    else if interview.status ≠ .SETUP then (.invalidTransition, db)
    else
      let updated := { interview with status := .IN_PROGRESS }
      (.ok updated, updateSession db id updated)

/-- `InterviewService.completeInterview` (interview-service.ts): legal only
from `IN_PROGRESS`, only for the owner; sets status `COMPLETED`. -/
def InterviewService.completeInterview (db : Db) (id userId : String) :
    TransitionResponse × Db :=
  match db.sessions.find? (fun iv => iv.id = id) with
  | none => (.notFound, db)
  | some interview =>
    if interview.interviewerId ≠ userId then (.unauthorized, db)
    else if interview.status ≠ .IN_PROGRESS then (.invalidTransition, db)
    else
      let updated := { interview with status := .COMPLETED }
      (.ok updated, updateSession db id updated)

/-! ## Section timer (section-timer.tsx)

`SectionTimer` stores no counter: every tick recomputes
`elapsed = new Date().getTime() - startTime.getTime()`, and the render
derives `remaining`, the warning flag and the progress bar from it.
Instants are milliseconds since epoch, embedded as `ℤ`. -/

/-- The values the `SectionTimer` render derives at one polling instant. -/
structure TimerView where
  elapsed : Int
  remaining : Int
  warning : Bool
deriving DecidableEq, Repr

/-- One `SectionTimer` evaluation at wall-clock `now`, with anchor
`startTime` and the section's `durationMinutes`:
`remaining = max(0, durationMinutes*60*1000 - elapsed)` and
`warning = remaining < 60000`. -/
def sectionTimerView (now startTime durationMinutes : Int) : TimerView :=
  let elapsed := now - startTime
  let totalMs := durationMinutes * 60 * 1000
  let remaining := max 0 (totalMs - elapsed)
  { elapsed := elapsed, remaining := remaining, warning := remaining < 60000 }

/-! ## Live interview page (LiveInterviewPage) -/

/-- One value of the in-memory `scores` buffer of the live page:
`Record<string, { score: number; notes: string }>`; `updateNotes` seeds a
missing score with `0`, so `score` is always present. -/
structure BufferEntry where
  score : Int
  notes : String
deriving DecidableEq, Repr

/-- `saveScores` (LiveInterviewPage): with the buffer as an ordered entry
list (unique keys, as in a JS object), returns the upsert requests it
issues — early return when the buffer is empty, otherwise one request per
entry with `score > 0`, keyed by the session id and the entry's question id. -/
def saveScores (interviewId : String) (buffer : List (String × BufferEntry)) :
    List UpsertRequest :=
  if buffer.isEmpty then []
  else
    (buffer.filter (fun e => 0 < e.2.score)).map (fun e =>
      { interviewId := interviewId, questionId := e.1,
        score := some (e.2.score : ℚ), notes := some e.2.notes })

/-- Apply a list of issued upsert requests to the score table in order,
with the server-side integer score (the controller accepted the payload).
Used to state what a save cycle persists. -/
def applySaveRequests (scores : List ScoreRow) (reqs : List UpsertRequest) : List ScoreRow :=
  reqs.foldl (fun acc r =>
    (prismaScoreUpsert acc r.interviewId r.questionId
      ((r.score.getD 0).num) r.notes).2) scores

/-! ## Aggregation surfaces

Four places compute per-section averages and an overall score from the same
persisted data: `getOverallScore` of the interview list page, the
aggregation block of the results page, and the duplicated blocks of
`ExportService.generateExcel` and `ExportService.generatePdf`.  The client
receives an interview with `sectionConfigs` (each including its `section`),
`selectedQuestions` (each including its `question` and that question's
`section`) and `scores`; the embedding keeps just the fields these
computations read. -/

/-- One `interview.scores[i]` as the aggregation code sees it. -/
structure ClientScore where
  questionId : String
  score : Int
  notes : Option String
deriving DecidableEq, Repr

/-- One `interview.selectedQuestions[i]`: its `questionId`, the included
question's `sectionId` and that section's `name`. -/
structure SelectedQuestion where
  questionId : String
  sectionId : String
  sectionName : String
deriving DecidableEq, Repr

/-- One `interview.sectionConfigs[i]`: its `sectionId`, the included
section's `name`, and `durationMinutes`. -/
structure SectionConfigView where
  sectionId : String
  sectionName : String
  durationMinutes : Int
deriving DecidableEq, Repr

/-- The interview payload the four aggregation surfaces consume. -/
structure InterviewView where
  sectionConfigs : List SectionConfigView
  selectedQuestions : List SelectedQuestion
  scores : List ClientScore
deriving DecidableEq, Repr

/-- Lookup in a JavaScript `Map` built with `new Map(entries)`: a later
entry overwrites an earlier one with the same key. -/
def jsMapLookup (entries : List (String × α)) (k : String) : Option α :=
  (entries.reverse.find? (fun e => e.1 = k)).map (fun e => e.2)

/-- `reduce((a,b) => a+b) / length` — the mean as every surface spells it. -/
def listMean (l : List ℚ) : ℚ := l.sum / l.length

/-- `Number.prototype.toFixed(1)` followed by `parseFloat`, on the exact
rational the JavaScript double approximates: round to one decimal place
(half away from zero for the values arising here, none of which are ties in
double arithmetic). -/
def toFixed1 (q : ℚ) : ℚ := (round (q * 10) : ℤ) / 10

/-- `getOverallScore` of the interview list page: `null` when scores,
section configs or selected questions are absent; else, per section config,
the scores of its selected questions (matched by `sectionId`, kept when
present and `> 0`), averaged; overall = mean of the per-section averages,
`null` when no section has any. -/
def getOverallScore (iv : InterviewView) : Option ℚ :=
  if iv.scores.isEmpty ∨ iv.sectionConfigs.isEmpty ∨ iv.selectedQuestions.isEmpty then
    none
  else
    let scoreMap := iv.scores.map (fun s => (s.questionId, (s.score : ℚ)))
    let sectionAvgs := iv.sectionConfigs.filterMap (fun sc =>
      let sectionScores :=
        (iv.selectedQuestions.filter (fun q => q.sectionId = sc.sectionId)).filterMap
          (fun q => (jsMapLookup scoreMap q.questionId).bind
            (fun s => if 0 < s then some s else none))
      if sectionScores.isEmpty then none
      else some (listMean sectionScores))
    if sectionAvgs.isEmpty then none
    else some (listMean sectionAvgs)

namespace ExportService

/-- The `sectionAvgs` loop of `ExportService.generateExcel`: per section
config, the score rows of its selected questions (matched by section
*name*, kept when present — no `> 0` filter), averaged. -/
def excelSectionAvgs (iv : InterviewView) : List ℚ :=
  let scoreMap := iv.scores.map (fun s => (s.questionId, s))
  iv.sectionConfigs.filterMap (fun sc =>
    let sScores :=
      (iv.selectedQuestions.filter (fun q => q.sectionName = sc.sectionName)).filterMap
        (fun q => jsMapLookup scoreMap q.questionId)
    if sScores.isEmpty then none
    else some (listMean (sScores.map (fun s => (s.score : ℚ)))))

/-- `generateExcel`'s overall average before the `.toFixed(1)` display
formatting (`'N/A'` embedded as `none`). -/
def excelOverallAvg (iv : InterviewView) : Option ℚ :=
  let sectionAvgs := excelSectionAvgs iv
  if sectionAvgs.isEmpty then none else some (listMean sectionAvgs)

/-- The `sectionAvgs` loop of `ExportService.generatePdf` — a verbatim copy
of the Excel one in the source. -/
def pdfSectionAvgs (iv : InterviewView) : List ℚ :=
  let scoreMap := iv.scores.map (fun s => (s.questionId, s))
  iv.sectionConfigs.filterMap (fun sc =>
    let sScores :=
      (iv.selectedQuestions.filter (fun q => q.sectionName = sc.sectionName)).filterMap
        (fun q => jsMapLookup scoreMap q.questionId)
    if sScores.isEmpty then none
    else some (listMean (sScores.map (fun s => (s.score : ℚ)))))

/-- `generatePdf`'s overall average before the `.toFixed(1)` display
formatting. -/
def pdfOverallAvg (iv : InterviewView) : Option ℚ :=
  let sectionAvgs := pdfSectionAvgs iv
  if sectionAvgs.isEmpty then none else some (listMean sectionAvgs)

end ExportService

/-- The per-section averages of the results page (`InterviewResultsPage`):
per section config, the score rows of its selected questions (matched by
`sectionId`, no `> 0` filter), averaged and immediately formatted with
`.toFixed(1)` (the em-dash placeholder for an unscored section is `none`);
`parseFloat` later reads the rounded value back. -/
def resultsSectionAvgs (iv : InterviewView) : List (Option ℚ) :=
  let scoreMap := iv.scores.map (fun s => (s.questionId, s))
  iv.sectionConfigs.map (fun sc =>
    let sectionScores :=
      (iv.selectedQuestions.filter (fun q => q.sectionId = sc.sectionId)).filterMap
        (fun q => jsMapLookup scoreMap q.questionId)
    if sectionScores.isEmpty then none
    else some (toFixed1 (listMean (sectionScores.map (fun s => (s.score : ℚ))))))

/-- The results page's overall score: the scored sections' *rounded*
averages, averaged, and formatted with `.toFixed(1)` for display. -/
def resultsOverallScore (iv : InterviewView) : Option ℚ :=
  let scored := (resultsSectionAvgs iv).filterMap id
  if scored.isEmpty then none else some (toFixed1 (listMean scored))

/-- The overall score as §4.5 of the specification words it, for the
refinement comparison: for each section in plan order gather its questions'
score entries with `score > 0`; a section with none is omitted; each
remaining section contributes the mean of its scores; the overall score is
the mean of those per-section means, absent when no section has any scored
question. -/
def specSectionScores (iv : InterviewView) (sc : SectionConfigView) : List ℚ :=
  (iv.selectedQuestions.filter (fun q => q.sectionId = sc.sectionId)).filterMap
    (fun q => (iv.scores.find? (fun s => s.questionId = q.questionId)).bind
      (fun s => if 0 < s.score then some ((s.score : ℚ)) else none))

/-- The spec-side mean-of-means (§4.5 / §3 invariants), to be compared with
`getOverallScore`. -/
def specOverallScore (iv : InterviewView) : Option ℚ :=
  let scoredSections :=
    iv.sectionConfigs.filter (fun sc => ¬ (specSectionScores iv sc).isEmpty)
  if scoredSections.isEmpty then none
  else some (listMean (scoredSections.map (fun sc => listMean (specSectionScores iv sc))))

/-! ## Helper lemmas -/

/-- Replacing the matching session rows preserves and updates the lookup. -/
lemma find?_updateSession (l : List InterviewSession) (id : String)
    (upd : InterviewSession) (hupd : upd.id = id) (a : InterviewSession)
    (h : l.find? (fun s => s.id = id) = some a) :
    (l.map (fun s => if s.id = id then upd else s)).find? (fun s => s.id = id) =
      some upd := by
  induction l with
  | nil => simp at h
  | cons x xs ih =>
    by_cases hx : x.id = id
    · simp only [List.map_cons, if_pos hx]
      exact List.find?_cons_of_pos _ (by simpa using hupd)
    · rw [List.find?_cons_of_neg _ (by simpa using hx)] at h
      simp only [List.map_cons, if_neg hx]
      rw [List.find?_cons_of_neg _ (by simpa using hx)]
      exact ih h

/-! ### C5 — lifecycle transitions -/

/-- **C5**: a session's status only moves forward `SETUP → IN_PROGRESS →
COMPLETED`: for an owned, existing session, `startInterview` succeeds
exactly from `SETUP` (setting `IN_PROGRESS`) and otherwise errors leaving
the database unchanged; `completeInterview` succeeds exactly from
`IN_PROGRESS` (setting `COMPLETED`) and otherwise errors leaving the
database unchanged; and starting twice makes the second call return the
invalid-transition error. -/
theorem start_complete_only_forward (db : Db) (id userId : String)
    (iv : InterviewSession)
    (hfind : db.sessions.find? (fun s => s.id = id) = some iv)
    (howner : iv.interviewerId = userId) :
    (iv.status = .SETUP →
      (InterviewService.startInterview db id userId).1 =
        .ok { iv with status := .IN_PROGRESS }) ∧
    (iv.status ≠ .SETUP →
      InterviewService.startInterview db id userId = (.invalidTransition, db)) ∧
    (iv.status = .IN_PROGRESS →
      (InterviewService.completeInterview db id userId).1 =
        .ok { iv with status := .COMPLETED }) ∧
    (iv.status ≠ .IN_PROGRESS →
      InterviewService.completeInterview db id userId = (.invalidTransition, db)) ∧
    (iv.status = .SETUP →
      (InterviewService.startInterview
          (InterviewService.startInterview db id userId).2 id userId).1 =
        .invalidTransition) ∧
    (∀ caller : String, iv.interviewerId ≠ caller →
      InterviewService.startInterview db id caller = (.unauthorized, db) ∧
      InterviewService.completeInterview db id caller = (.unauthorized, db)) := by
  have hid : iv.id = id := by simpa using List.find?_some hfind
  refine ⟨fun hs => ?_, fun hs => ?_, fun hs => ?_, fun hs => ?_, fun hs => ?_,
    fun caller hc => ⟨?_, ?_⟩⟩
  · simp [InterviewService.startInterview, hfind, howner, hs]
  · simp [InterviewService.startInterview, hfind, howner, hs]
  · simp [InterviewService.completeInterview, hfind, howner, hs]
  · simp [InterviewService.completeInterview, hfind, howner, hs]
  · have hstep : (InterviewService.startInterview db id userId).2 =
        updateSession db id { iv with status := .IN_PROGRESS } := by
      simp [InterviewService.startInterview, hfind, howner, hs]
    rw [hstep]
    have hfind2 : (updateSession db id { iv with status := .IN_PROGRESS }).sessions.find?
        (fun s => s.id = id) = some { iv with status := .IN_PROGRESS } :=
      find?_updateSession db.sessions id _ hid iv hfind
    simp only [InterviewService.startInterview]
    rw [hfind2]
    simp [howner]
  · simp [InterviewService.startInterview, hfind, hc]
  · simp [InterviewService.completeInterview, hfind, hc]

/-- Witness for C5 at a concrete one-session database in `SETUP`. -/
theorem start_complete_only_forward_witness :
    (InterviewService.startInterview
      ⟨[⟨"iv1", "alice", .SETUP⟩], [], [], []⟩ "iv1" "alice").1 =
        .ok ⟨"iv1", "alice", .IN_PROGRESS⟩ ∧
    (InterviewService.startInterview
      (InterviewService.startInterview
        ⟨[⟨"iv1", "alice", .SETUP⟩], [], [], []⟩ "iv1" "alice").2 "iv1" "alice").1 =
        .invalidTransition ∧
    InterviewService.startInterview
        ⟨[⟨"iv1", "alice", .SETUP⟩], [], [], []⟩ "iv1" "eve" =
      (.unauthorized, ⟨[⟨"iv1", "alice", .SETUP⟩], [], [], []⟩) := by
  have h := start_complete_only_forward
    ⟨[⟨"iv1", "alice", .SETUP⟩], [], [], []⟩ "iv1" "alice"
    ⟨"iv1", "alice", .SETUP⟩ (by decide) (by decide)
  exact ⟨h.1 rfl, h.2.2.2.2.1 rfl, (h.2.2.2.2.2 "eve" (by decide)).1⟩

/-! ### C6 — section timer -/

/-- **C6**: at every polling instant the timer's remaining time is
`max 0 (durationMinutes·60000 − elapsed)` with `elapsed` recomputed from
the anchor; it is never negative; the low-time flag holds exactly when
remaining is below 60 seconds; and with one allocated minute and an anchor
70 seconds in the past, remaining is 0 and the flag is set. -/
theorem sectionTimer_remaining_max_and_warning (now startTime durationMinutes : Int) :
    (sectionTimerView now startTime durationMinutes).remaining =
      max 0 (durationMinutes * 60000 - (now - startTime)) ∧
    0 ≤ (sectionTimerView now startTime durationMinutes).remaining ∧
    ((sectionTimerView now startTime durationMinutes).warning ↔
      (sectionTimerView now startTime durationMinutes).remaining < 60000) ∧
    (durationMinutes = 1 → now - startTime = 70000 →
      (sectionTimerView now startTime durationMinutes).remaining = 0 ∧
      (sectionTimerView now startTime durationMinutes).warning = true) := by
  refine ⟨?_, ?_, ?_, fun hd he => ?_⟩
  · simp [sectionTimerView]; ring_nf
  · simp [sectionTimerView]
  · simp [sectionTimerView]
  · have : now = startTime + 70000 := by omega
    subst hd this
    constructor
    · simp [sectionTimerView]
    · simp [sectionTimerView]

/-- Witness for C6 with anchor 0, polling instant 70000 ms, one minute. -/
theorem sectionTimer_remaining_max_and_warning_witness :
    (sectionTimerView 70000 0 1).remaining = 0 ∧
    (sectionTimerView 70000 0 1).warning = true := by
  exact (sectionTimer_remaining_max_and_warning 70000 0 1).2.2.2 (by decide) (by decide)

/-! ### C7 — score validation and ownership -/

/-- **C7**: with both ids present and a score supplied, the upsert request
is rejected with the invalid-score response when the score is a non-integer
or outside `[1,5]`; with a valid score it is rejected as unauthorized when
the caller does not own the (existing) session; and with a valid score from
the owner neither of these two rejections occurs. -/
theorem upsert_score_validation (db : Db) (userId : String) (req : UpsertRequest)
    (s : ℚ) (hscore : req.score = some s)
    (hiv : req.interviewId ≠ "") (hq : req.questionId ≠ "") :
    (¬ (s.den = 1 ∧ 1 ≤ s ∧ s ≤ 5) →
      ScoreController.upsert db userId req = (.invalidScore, db)) ∧
    (∀ iv, db.sessions.find? (fun x => x.id = req.interviewId) = some iv →
      s.den = 1 → 1 ≤ s → s ≤ 5 →
      (iv.interviewerId ≠ userId →
        ScoreController.upsert db userId req = (.unauthorized, db)) ∧
      (iv.interviewerId = userId →
        (ScoreController.upsert db userId req).1 ≠ .invalidScore ∧
        (ScoreController.upsert db userId req).1 ≠ .unauthorized)) := by
  constructor
  · intro hbad
    simp [ScoreController.upsert, hscore, hiv, hq, hbad]
  · intro iv hfind hden hlo hhi
    constructor
    · intro hnotowner
      simp [ScoreController.upsert, hscore, hiv, hq, hden, hlo, hhi, hfind, hnotowner]
    · intro howner
      cases hup : ScoreService.upsertScore db req.interviewId req.questionId s.num req.notes with
      | none =>
        constructor <;>
          simp [ScoreController.upsert, hscore, hiv, hq, hden, hlo, hhi, hfind, howner, hup]
      | some pair =>
        constructor <;>
          simp [ScoreController.upsert, hscore, hiv, hq, hden, hlo, hhi, hfind, howner, hup]

/-- Witness for C7: a non-integer score is rejected, a foreign caller is
rejected, and the owner's valid request passes both checks. -/
theorem upsert_score_validation_witness :
    ScoreController.upsert ⟨[⟨"iv1", "alice", .IN_PROGRESS⟩], [⟨"q1", "secA"⟩], [], []⟩
        "alice" ⟨"iv1", "q1", some 6, none⟩ =
      (.invalidScore, ⟨[⟨"iv1", "alice", .IN_PROGRESS⟩], [⟨"q1", "secA"⟩], [], []⟩) ∧
    ScoreController.upsert ⟨[⟨"iv1", "alice", .IN_PROGRESS⟩], [⟨"q1", "secA"⟩], [], []⟩
        "eve" ⟨"iv1", "q1", some 4, none⟩ =
      (.unauthorized, ⟨[⟨"iv1", "alice", .IN_PROGRESS⟩], [⟨"q1", "secA"⟩], [], []⟩) ∧
    (ScoreController.upsert ⟨[⟨"iv1", "alice", .IN_PROGRESS⟩], [⟨"q1", "secA"⟩], [], []⟩
        "alice" ⟨"iv1", "q1", some 4, none⟩).1 ≠ .invalidScore := by
  refine ⟨?_, ?_, ?_⟩
  · exact (upsert_score_validation _ "alice" _ 6 rfl (by decide) (by decide)).1 (by decide)
  · exact ((upsert_score_validation _ "eve" _ 4 rfl (by decide) (by decide)).2
      ⟨"iv1", "alice", .IN_PROGRESS⟩ (by decide) (by decide) (by decide) (by decide)).1
      (by decide)
  · exact (((upsert_score_validation _ "alice" _ 4 rfl (by decide) (by decide)).2
      ⟨"iv1", "alice", .IN_PROGRESS⟩ (by decide) (by decide) (by decide) (by decide)).2
      rfl).1

/-! ### Upsert machinery lemmas -/

/-- The row the Prisma upsert writes carries the requested key and score. -/
lemma prismaScoreUpsert_key (scores : List ScoreRow) (i q : String) (sc : Int)
    (notes : Option String) :
    (prismaScoreUpsert scores i q sc notes).1.interviewId = i ∧
    (prismaScoreUpsert scores i q sc notes).1.questionId = q ∧
    (prismaScoreUpsert scores i q sc notes).1.score = sc := by
  unfold prismaScoreUpsert
  cases hf : scores.find? (fun r => r.interviewId = i ∧ r.questionId = q) with
  | none => simp
  | some old =>
    have hkey : old.interviewId = i ∧ old.questionId = q := by
      simpa using List.find?_some hf
    simp [hkey.1, hkey.2]

/-- The written row is in the table the upsert returns. -/
lemma prismaScoreUpsert_mem (scores : List ScoreRow) (i q : String) (sc : Int)
    (notes : Option String) :
    (prismaScoreUpsert scores i q sc notes).1 ∈ (prismaScoreUpsert scores i q sc notes).2 := by
  unfold prismaScoreUpsert
  cases hf : scores.find? (fun r => r.interviewId = i ∧ r.questionId = q) with
  | none => simp
  | some old =>
    have hkey : old.interviewId = i ∧ old.questionId = q := by
      simpa using List.find?_some hf
    have hold := List.mem_of_find?_eq_some hf
    simp only []
    exact List.mem_map.mpr ⟨old, hold, by simp [hkey.1, hkey.2]⟩

/-- After the upsert, the written row is the only one with its key. -/
lemma prismaScoreUpsert_unique (scores : List ScoreRow) (i q : String) (sc : Int)
    (notes : Option String) (r : ScoreRow)
    (hr : r ∈ (prismaScoreUpsert scores i q sc notes).2)
    (hi : r.interviewId = i) (hq : r.questionId = q) :
    r = (prismaScoreUpsert scores i q sc notes).1 := by
  unfold prismaScoreUpsert at hr ⊢
  cases hf : scores.find? (fun x => x.interviewId = i ∧ x.questionId = q) with
  | none =>
    rw [hf] at hr
    simp only [] at hr
    rcases List.mem_append.mp hr with hmem | hmem
    · exfalso
      have := List.find?_eq_none.mp hf r hmem
      simp [hi, hq] at this
    · simpa using hmem
  | some old =>
    rw [hf] at hr
    simp only [] at hr
    rcases List.mem_map.mp hr with ⟨x, _, hx⟩
    by_cases hkey : x.interviewId = i ∧ x.questionId = q
    · rw [if_pos hkey] at hx
      exact hx.symm
    · rw [if_neg hkey] at hx
      subst hx
      exact absurd ⟨hi, hq⟩ hkey

/-- When the payload carries notes, the written row stores them. -/
lemma prismaScoreUpsert_notes_some (scores : List ScoreRow) (i q : String) (sc : Int)
    (n : String) :
    (prismaScoreUpsert scores i q sc (some n)).1.notes = some n := by
  unfold prismaScoreUpsert
  cases hf : scores.find? (fun r => r.interviewId = i ∧ r.questionId = q) <;> simp

/-- Replacing the rows matching a key preserves and updates the lookup. -/
lemma find?_map_replaceScore (l : List ScoreRow) (i q : String) (upd : ScoreRow)
    (hupd : upd.interviewId = i ∧ upd.questionId = q) (a : ScoreRow)
    (h : l.find? (fun r => r.interviewId = i ∧ r.questionId = q) = some a) :
    (l.map (fun r => if r.interviewId = i ∧ r.questionId = q then upd else r)).find?
      (fun r => r.interviewId = i ∧ r.questionId = q) = some upd := by
  induction l with
  | nil => simp at h
  | cons x xs ih =>
    by_cases hx : x.interviewId = i ∧ x.questionId = q
    · simp only [List.map_cons, if_pos hx]
      exact List.find?_cons_of_pos _ (by simp [hupd.1, hupd.2])
    · rw [List.find?_cons_of_neg _ (by simpa using hx)] at h
      simp only [List.map_cons, if_neg hx]
      rw [List.find?_cons_of_neg _ (by simpa using hx)]
      exact ih h

/-- Under the validation, existence, ownership and foreign-key hypotheses,
`ScoreController.upsert` answers with the row the Prisma upsert writes and
the database carrying the upserted table. -/
lemma controller_upsert_ok (db : Db) (userId : String) (req : UpsertRequest)
    (s : ℚ) (iv : InterviewSession)
    (hscore : req.score = some s)
    (hiv : req.interviewId ≠ "") (hq : req.questionId ≠ "")
    (hden : s.den = 1) (hlo : 1 ≤ s) (hhi : s ≤ 5)
    (hfind : db.sessions.find? (fun x => x.id = req.interviewId) = some iv)
    (howner : iv.interviewerId = userId)
    (hquestion : db.questions.any (fun x => x.id = req.questionId) = true) :
    ScoreController.upsert db userId req =
      (.ok (prismaScoreUpsert db.scores req.interviewId req.questionId s.num req.notes).1,
       { db with scores :=
          (prismaScoreUpsert db.scores req.interviewId req.questionId s.num req.notes).2 }) := by
  have hivid : iv.id = req.interviewId := by simpa using List.find?_some hfind
  have hsess : db.sessions.any (fun x => x.id = req.interviewId) = true :=
    List.any_eq_true.mpr
      ⟨iv, List.mem_of_find?_eq_some hfind, by simpa using hivid⟩
  have hservice : ScoreService.upsertScore db req.interviewId req.questionId s.num req.notes =
      some ((prismaScoreUpsert db.scores req.interviewId req.questionId s.num req.notes).1,
        { db with scores :=
          (prismaScoreUpsert db.scores req.interviewId req.questionId s.num req.notes).2 }) := by
    simp [ScoreService.upsertScore, hsess, hquestion]
  simp [ScoreController.upsert, hscore, hiv, hq, hden, hlo, hhi, hfind, howner, hservice]

/-! ### C8 — write/read round-trip -/

/-- **C8**: for a valid integer score in `[1,5]` sent with notes by the
session's owner (session and question existing), the upsert succeeds and a
subsequent `list Scores` for that session returns exactly one entry for
that question, holding the upserted score and notes. -/
theorem upsert_then_list_roundtrip (db : Db) (userId : String) (req : UpsertRequest)
    (s : ℚ) (n : String) (iv : InterviewSession)
    (hscore : req.score = some s) (hnotes : req.notes = some n)
    (hiv : req.interviewId ≠ "") (hq : req.questionId ≠ "")
    (hden : s.den = 1) (hlo : 1 ≤ s) (hhi : s ≤ 5)
    (hfind : db.sessions.find? (fun x => x.id = req.interviewId) = some iv)
    (howner : iv.interviewerId = userId)
    (hquestion : db.questions.any (fun x => x.id = req.questionId) = true) :
    ∃ row db',
      ScoreController.upsert db userId req = (.ok row, db') ∧
      row.questionId = req.questionId ∧ row.score = s.num ∧ row.notes = some n ∧
      row ∈ ScoreService.getScoresForInterview db' req.interviewId ∧
      ∀ r ∈ ScoreService.getScoresForInterview db' req.interviewId,
        r.questionId = req.questionId → r = row := by
  have hok := controller_upsert_ok db userId req s iv hscore hiv hq hden hlo hhi
    hfind howner hquestion
  have hkey := prismaScoreUpsert_key db.scores req.interviewId req.questionId s.num req.notes
  refine ⟨_, _, hok, hkey.2.1, hkey.2.2, ?_, ?_, ?_⟩
  · rw [hnotes]
    exact prismaScoreUpsert_notes_some db.scores req.interviewId req.questionId s.num n
  · exact List.mem_filter.mpr
      ⟨prismaScoreUpsert_mem db.scores req.interviewId req.questionId s.num req.notes,
       by simpa using hkey.1⟩
  · intro r hr hrq
    have hr2 := List.mem_filter.mp hr
    exact prismaScoreUpsert_unique db.scores req.interviewId req.questionId s.num req.notes r
      hr2.1 (by simpa using hr2.2) hrq

/-- Witness for C8: upserting score 4 with a note round-trips through the
listing. -/
theorem upsert_then_list_roundtrip_witness :
    ∃ row db',
      ScoreController.upsert ⟨[⟨"iv1", "alice", .IN_PROGRESS⟩], [⟨"q1", "secA"⟩], [], []⟩
          "alice" ⟨"iv1", "q1", some 4, some "solid"⟩ = (.ok row, db') ∧
      row.questionId = "q1" ∧ row.score = (4 : ℚ).num ∧ row.notes = some "solid" ∧
      row ∈ ScoreService.getScoresForInterview db' "iv1" ∧
      ∀ r ∈ ScoreService.getScoresForInterview db' "iv1",
        r.questionId = "q1" → r = row :=
  upsert_then_list_roundtrip
    ⟨[⟨"iv1", "alice", .IN_PROGRESS⟩], [⟨"q1", "secA"⟩], [], []⟩
    "alice" ⟨"iv1", "q1", some 4, some "solid"⟩ 4 "solid"
    ⟨"iv1", "alice", .IN_PROGRESS⟩ rfl rfl (by decide) (by decide)
    (by decide) (by decide) (by decide) (by decide) rfl (by decide)

/-! ### C10 — notes-less update keeps notes -/

/-- **C10**: an upsert for an existing `(interviewId, questionId)` entry
that omits `notes` overwrites the score but leaves the stored notes
untouched, both in the returned row and in the table. -/
theorem upsert_without_notes_keeps_notes (db : Db) (i q : String) (sc : Int)
    (old : ScoreRow)
    (hfind : db.scores.find? (fun r => r.interviewId = i ∧ r.questionId = q) = some old)
    (hsess : db.sessions.any (fun x => x.id = i) = true)
    (hquestion : db.questions.any (fun x => x.id = q) = true) :
    ∃ db',
      ScoreService.upsertScore db i q sc none = some ({ old with score := sc }, db') ∧
      db'.scores.find? (fun r => r.interviewId = i ∧ r.questionId = q) =
        some { old with score := sc } := by
  have hup : prismaScoreUpsert db.scores i q sc none =
      ({ old with score := sc },
       db.scores.map (fun r =>
         if r.interviewId = i ∧ r.questionId = q then { old with score := sc } else r)) := by
    unfold prismaScoreUpsert
    rw [hfind]
  have hkey : old.interviewId = i ∧ old.questionId = q := by
    simpa using List.find?_some hfind
  refine ⟨{ db with scores := db.scores.map (fun r =>
      if r.interviewId = i ∧ r.questionId = q then { old with score := sc } else r) },
      ?_, ?_⟩
  · simp [ScoreService.upsertScore, hsess, hquestion, hup]
  · exact find?_map_replaceScore db.scores i q _ ⟨hkey.1, hkey.2⟩ old hfind

/-- Witness for C10: a notes-less re-score keeps the stored note. -/
theorem upsert_without_notes_keeps_notes_witness :
    ∃ db',
      ScoreService.upsertScore
          ⟨[⟨"iv1", "alice", .IN_PROGRESS⟩], [⟨"q1", "secA"⟩], [],
           [⟨"iv1", "q1", 2, some "weak"⟩]⟩ "iv1" "q1" 5 none =
        some (⟨"iv1", "q1", 5, some "weak"⟩, db') ∧
      db'.scores.find? (fun r => r.interviewId = "iv1" ∧ r.questionId = "q1") =
        some ⟨"iv1", "q1", 5, some "weak"⟩ :=
  upsert_without_notes_keeps_notes
    ⟨[⟨"iv1", "alice", .IN_PROGRESS⟩], [⟨"q1", "secA"⟩], [],
     [⟨"iv1", "q1", 2, some "weak"⟩]⟩ "iv1" "q1" 5
    ⟨"iv1", "q1", 2, some "weak"⟩ (by decide) (by decide) (by decide)

/-! ### C1 — scores after Finished -/

/-- **C1 counterexample**: completing an in-progress session (the path
`handleNextSection` takes on the final section) leaves it `COMPLETED`, yet
a subsequent upsert from the owner succeeds and creates a score entry —
no invalid-state rejection exists on the score path. -/
theorem upsert_after_finished_succeeds_cex :
    (InterviewService.completeInterview
        ⟨[⟨"iv1", "alice", .IN_PROGRESS⟩], [⟨"q1", "secA"⟩], [⟨"iv1", "q1", 1⟩], []⟩
        "iv1" "alice").2.sessions = [⟨"iv1", "alice", .COMPLETED⟩] ∧
    (ScoreController.upsert
        (InterviewService.completeInterview
          ⟨[⟨"iv1", "alice", .IN_PROGRESS⟩], [⟨"q1", "secA"⟩], [⟨"iv1", "q1", 1⟩], []⟩
          "iv1" "alice").2
        "alice" ⟨"iv1", "q1", some 4, some "late"⟩).1 = .ok ⟨"iv1", "q1", 4, some "late"⟩ ∧
    (ScoreController.upsert
        (InterviewService.completeInterview
          ⟨[⟨"iv1", "alice", .IN_PROGRESS⟩], [⟨"q1", "secA"⟩], [⟨"iv1", "q1", 1⟩], []⟩
          "iv1" "alice").2
        "alice" ⟨"iv1", "q1", some 4, some "late"⟩).2.scores =
      [⟨"iv1", "q1", 4, some "late"⟩] := by
  decide

/-- **C1 amended**: `upsert Score` never consults the session status — in
particular for a `COMPLETED` (Finished) session, a valid integer score in
`[1,5]` from the owner for an existing question succeeds and the entry is
created or modified. -/
theorem upsert_ignores_finished_status (db : Db) (userId : String) (req : UpsertRequest)
    (s : ℚ) (iv : InterviewSession)
    (hscore : req.score = some s)
    (hiv : req.interviewId ≠ "") (hq : req.questionId ≠ "")
    (hden : s.den = 1) (hlo : 1 ≤ s) (hhi : s ≤ 5)
    (hfind : db.sessions.find? (fun x => x.id = req.interviewId) = some iv)
    (howner : iv.interviewerId = userId)
    (hquestion : db.questions.any (fun x => x.id = req.questionId) = true)
    (hfinished : iv.status = .COMPLETED) :
    ∃ row db',
      ScoreController.upsert db userId req = (.ok row, db') ∧
      row.questionId = req.questionId ∧ row.score = s.num ∧
      row ∈ ScoreService.getScoresForInterview db' req.interviewId := by
  have hok := controller_upsert_ok db userId req s iv hscore hiv hq hden hlo hhi
    hfind howner hquestion
  have hkey := prismaScoreUpsert_key db.scores req.interviewId req.questionId s.num req.notes
  exact ⟨_, _, hok, hkey.2.1, hkey.2.2,
    List.mem_filter.mpr
      ⟨prismaScoreUpsert_mem db.scores req.interviewId req.questionId s.num req.notes,
       by simpa using hkey.1⟩⟩

/-- Witness for the amended C1 on a concrete completed session. -/
theorem upsert_ignores_finished_status_witness :
    ∃ row db',
      ScoreController.upsert ⟨[⟨"iv1", "alice", .COMPLETED⟩], [⟨"q1", "secA"⟩], [], []⟩
          "alice" ⟨"iv1", "q1", some 3, none⟩ = (.ok row, db') ∧
      row.questionId = "q1" ∧ row.score = (3 : ℚ).num ∧
      row ∈ ScoreService.getScoresForInterview db' "iv1" :=
  upsert_ignores_finished_status
    ⟨[⟨"iv1", "alice", .COMPLETED⟩], [⟨"q1", "secA"⟩], [], []⟩
    "alice" ⟨"iv1", "q1", some 3, none⟩ 3 ⟨"iv1", "alice", .COMPLETED⟩
    rfl (by decide) (by decide) (by decide) (by decide) (by decide) (by decide)
    rfl (by decide) rfl

/-! ### C3 — question-selection membership -/

/-- **C3 counterexample**: a session whose selection contains only `q1`
accepts an owner upsert for `q2` (a question existing in the bank but
outside the selection) and creates the entry — selection membership is not
enforced. -/
theorem upsert_outside_selection_succeeds_cex :
    (ScoreController.upsert
        ⟨[⟨"iv1", "alice", .IN_PROGRESS⟩], [⟨"q1", "secA"⟩, ⟨"q2", "secA"⟩],
         [⟨"iv1", "q1", 1⟩], []⟩
        "alice" ⟨"iv1", "q2", some 3, none⟩).1 = .ok ⟨"iv1", "q2", 3, none⟩ ∧
    (ScoreController.upsert
        ⟨[⟨"iv1", "alice", .IN_PROGRESS⟩], [⟨"q1", "secA"⟩, ⟨"q2", "secA"⟩],
         [⟨"iv1", "q1", 1⟩], []⟩
        "alice" ⟨"iv1", "q2", some 3, none⟩).2.scores = [⟨"iv1", "q2", 3, none⟩] ∧
    ([⟨"iv1", "q1", 1⟩] : List InterviewQuestionRow).all
      (fun r => !(r.interviewId = "iv1" ∧ r.questionId = "q2")) = true := by
  decide

/-- **C3 amended**: a score entry's `questionId` is only constrained by the
`Score_questionId_fkey` foreign key — every successful upsert references an
existing `Question` row — while membership in the session's
`InterviewQuestion` selection is not checked: an owner upsert with a valid
score for an existing question outside the selection succeeds and creates
the entry. -/
theorem score_questionId_fk_but_not_selection :
    (∀ (db : Db) (i q : String) (sc : Int) (notes : Option String)
        (row : ScoreRow) (db' : Db),
      ScoreService.upsertScore db i q sc notes = some (row, db') →
      db.questions.any (fun x => x.id = q) = true) ∧
    (∀ (db : Db) (userId : String) (req : UpsertRequest) (s : ℚ)
        (iv : InterviewSession),
      req.score = some s → req.interviewId ≠ "" → req.questionId ≠ "" →
      s.den = 1 → 1 ≤ s → s ≤ 5 →
      db.sessions.find? (fun x => x.id = req.interviewId) = some iv →
      iv.interviewerId = userId →
      db.questions.any (fun x => x.id = req.questionId) = true →
      (∀ r ∈ db.interviewQuestions,
        ¬ (r.interviewId = req.interviewId ∧ r.questionId = req.questionId)) →
      ∃ row db',
        ScoreController.upsert db userId req = (.ok row, db') ∧
        row.questionId = req.questionId ∧
        row ∈ ScoreService.getScoresForInterview db' req.interviewId) := by
  constructor
  · intro db i q sc notes row db' h
    by_cases hc : db.sessions.any (fun s => s.id = i) ∧ db.questions.any (fun x => x.id = q)
    · exact hc.2
    · simp only [ScoreService.upsertScore, if_neg hc] at h
      cases h
  · intro db userId req s iv hscore hiv hq hden hlo hhi hfind howner hquestion hnotsel
    have hok := controller_upsert_ok db userId req s iv hscore hiv hq hden hlo hhi
      hfind howner hquestion
    have hkey := prismaScoreUpsert_key db.scores req.interviewId req.questionId s.num req.notes
    exact ⟨_, _, hok, hkey.2.1,
      List.mem_filter.mpr
        ⟨prismaScoreUpsert_mem db.scores req.interviewId req.questionId s.num req.notes,
         by simpa using hkey.1⟩⟩

/-- Witness for the amended C3: a concrete upsert outside the selection,
fed through both conjuncts of the theorem. -/
theorem score_questionId_fk_but_not_selection_witness :
    (⟨[⟨"iv1", "alice", .IN_PROGRESS⟩], [⟨"q1", "secA"⟩, ⟨"q2", "secA"⟩],
       [⟨"iv1", "q1", 1⟩], []⟩ : Db).questions.any (fun x => x.id = "q2") = true ∧
    (∃ row db',
      ScoreController.upsert
          ⟨[⟨"iv1", "alice", .IN_PROGRESS⟩], [⟨"q1", "secA"⟩, ⟨"q2", "secA"⟩],
           [⟨"iv1", "q1", 1⟩], []⟩
          "alice" ⟨"iv1", "q2", some 3, none⟩ = (.ok row, db') ∧
      row.questionId = "q2" ∧
      row ∈ ScoreService.getScoresForInterview db' "iv1") := by
  refine ⟨?_, ?_⟩
  · exact score_questionId_fk_but_not_selection.1
      ⟨[⟨"iv1", "alice", .IN_PROGRESS⟩], [⟨"q1", "secA"⟩, ⟨"q2", "secA"⟩],
       [⟨"iv1", "q1", 1⟩], []⟩ "iv1" "q2" 3 none ⟨"iv1", "q2", 3, none⟩
      ⟨[⟨"iv1", "alice", .IN_PROGRESS⟩], [⟨"q1", "secA"⟩, ⟨"q2", "secA"⟩],
       [⟨"iv1", "q1", 1⟩], [⟨"iv1", "q2", 3, none⟩]⟩ (by decide)
  · exact score_questionId_fk_but_not_selection.2
      ⟨[⟨"iv1", "alice", .IN_PROGRESS⟩], [⟨"q1", "secA"⟩, ⟨"q2", "secA"⟩],
       [⟨"iv1", "q1", 1⟩], []⟩ "alice" ⟨"iv1", "q2", some 3, none⟩ 3
      ⟨"iv1", "alice", .IN_PROGRESS⟩ rfl (by decide) (by decide) (by decide)
      (by decide) (by decide) (by decide) rfl (by decide) (by decide)

/-! ### C9 — save cycles persist exactly the positive buffer entries -/

/-- Mapping a function over a list leaves a filter unchanged when the
function fixes the kept elements and never makes a dropped one kept. -/
lemma filter_map_invariant (l : List α) (f : α → α) (p : α → Bool)
    (hkeep : ∀ r ∈ l, p r = true → f r = r)
    (hdrop : ∀ r ∈ l, p r = false → p (f r) = false) :
    (l.map f).filter p = l.filter p := by
  induction l with
  | nil => rfl
  | cons x xs ih =>
    simp only [List.map_cons, List.filter_cons]
    cases hx : p x with
    | true =>
      rw [hkeep x (List.mem_cons_self x xs) hx, hx]
      simp only [cond_true]
      rw [ih (fun r hr => hkeep r (List.mem_cons_of_mem x hr))
          (fun r hr => hdrop r (List.mem_cons_of_mem x hr))]
    | false =>
      rw [hdrop x (List.mem_cons_self x xs) hx]
      exact ih (fun r hr => hkeep r (List.mem_cons_of_mem x hr))
        (fun r hr => hdrop r (List.mem_cons_of_mem x hr))

/-- A Prisma score upsert keyed at question `q` leaves the rows of any other
question `k` untouched. -/
lemma prismaScoreUpsert_frame (scores : List ScoreRow) (i q : String)
    (sc : Int) (notes : Option String) (k : String) (hk : k ≠ q) :
    (prismaScoreUpsert scores i q sc notes).2.filter (fun r => r.questionId = k) =
      scores.filter (fun r => r.questionId = k) := by
  unfold prismaScoreUpsert
  cases hf : scores.find? (fun r => r.interviewId = i ∧ r.questionId = q) with
  | none =>
    simp only [List.filter_append]
    have hq : ((⟨i, q, sc, notes⟩ : ScoreRow).questionId = k) = False := by
      simp [Ne.symm hk]
    simp [hq]
  | some old =>
    have hkey : old.interviewId = i ∧ old.questionId = q := by
      simpa using List.find?_some hf
    simp only []
    refine filter_map_invariant scores _ _ ?_ ?_
    · intro r _ hr
      have hrk : r.questionId = k := by simpa using hr
      rw [if_neg]
      intro hcontr
      exact hk (hrk ▸ hcontr.2 ▸ rfl)
    · intro r _ hr
      by_cases hc : r.interviewId = i ∧ r.questionId = q
      · rw [if_pos hc]
        simp [hkey.2, Ne.symm hk]
      · rw [if_neg hc]
        exact hr

/-- A whole sequence of save requests that never touches question `k`
leaves the rows of `k` untouched. -/
lemma applySaveRequests_frame (scores : List ScoreRow) (reqs : List UpsertRequest)
    (k : String) (h : ∀ r ∈ reqs, r.questionId ≠ k) :
    (applySaveRequests scores reqs).filter (fun r => r.questionId = k) =
      scores.filter (fun r => r.questionId = k) := by
  induction reqs generalizing scores with
  | nil => rfl
  | cons r rs ih =>
    have hstep : applySaveRequests scores (r :: rs) =
        applySaveRequests
          (prismaScoreUpsert scores r.interviewId r.questionId
            ((r.score.getD 0).num) r.notes).2 rs := rfl
    rw [hstep, ih _ (fun x hx => h x (List.mem_cons_of_mem r hx))]
    exact prismaScoreUpsert_frame scores r.interviewId r.questionId _ r.notes k
      (Ne.symm (h r (List.mem_cons_self r rs)))

/-- **C9**: a save cycle issues exactly one upsert per buffer entry with a
positive score, keyed by the session and question ids and carrying that
entry's score and notes; entries with score `≤ 0` generate no request, and
the stored rows of their questions are untouched by applying the cycle. -/
theorem saveScores_persists_exactly_positive (interviewId : String)
    (buffer : List (String × BufferEntry))
    (hkeys : (buffer.map Prod.fst).Nodup) :
    (∀ r ∈ saveScores interviewId buffer, ∃ e ∈ buffer, 0 < e.2.score ∧
      r = ⟨interviewId, e.1, some ((e.2.score : ℚ)), some e.2.notes⟩) ∧
    (∀ e ∈ buffer, 0 < e.2.score →
      (⟨interviewId, e.1, some ((e.2.score : ℚ)), some e.2.notes⟩ : UpsertRequest) ∈
        saveScores interviewId buffer) ∧
    (∀ e ∈ buffer, e.2.score ≤ 0 →
      ∀ r ∈ saveScores interviewId buffer, r.questionId ≠ e.1) ∧
    (∀ (scores : List ScoreRow), ∀ e ∈ buffer, e.2.score ≤ 0 →
      (applySaveRequests scores (saveScores interviewId buffer)).filter
          (fun r => r.questionId = e.1) =
        scores.filter (fun r => r.questionId = e.1)) := by
  have hmem : ∀ r ∈ saveScores interviewId buffer, ∃ e ∈ buffer, 0 < e.2.score ∧
      r = ⟨interviewId, e.1, some ((e.2.score : ℚ)), some e.2.notes⟩ := by
    intro r hr
    unfold saveScores at hr
    by_cases hb : buffer.isEmpty
    · rw [if_pos hb] at hr
      cases hr
    · rw [if_neg hb] at hr
      rcases List.mem_map.mp hr with ⟨e, he, hre⟩
      have he2 := List.mem_filter.mp he
      exact ⟨e, he2.1, by simpa using he2.2, hre.symm⟩
  have hnotouch : ∀ e ∈ buffer, e.2.score ≤ 0 →
      ∀ r ∈ saveScores interviewId buffer, r.questionId ≠ e.1 := by
    intro e he hle r hr hrk
    rcases hmem r hr with ⟨f, hf, hfpos, hrf⟩
    have hkey : f.1 = e.1 := by rw [hrf] at hrk; exact hrk
    have : f = e :=
      List.inj_on_of_nodup_map hkeys hf he hkey
    rw [this] at hfpos
    omega
  refine ⟨hmem, ?_, hnotouch, ?_⟩
  · intro e he hpos
    unfold saveScores
    have hb : ¬ buffer.isEmpty := by
      cases buffer with
      | nil => cases he
      | cons x xs => simp
    rw [if_neg hb]
    exact List.mem_map.mpr ⟨e, List.mem_filter.mpr ⟨he, by simpa using hpos⟩, rfl⟩
  · intro scores e he hle
    exact applySaveRequests_frame scores _ e.1 (hnotouch e he hle)

/-- Witness for C9: a two-entry buffer (one scored, one notes-only) issues
one request and leaves the unscored question's rows untouched. -/
theorem saveScores_persists_exactly_positive_witness :
    ((⟨"iv1", "q1", some ((4 : ℚ)), some "good"⟩ : UpsertRequest) ∈
      saveScores "iv1" [("q1", ⟨4, "good"⟩), ("q2", ⟨0, "draft note"⟩)]) ∧
    (applySaveRequests [] (saveScores "iv1" [("q1", ⟨4, "good"⟩), ("q2", ⟨0, "draft note"⟩)])).filter
        (fun r => r.questionId = "q2") = [] := by
  have h := saveScores_persists_exactly_positive "iv1"
    [("q1", ⟨4, "good"⟩), ("q2", ⟨0, "draft note"⟩)] (by decide)
  refine ⟨?_, ?_⟩
  · have := h.2.1 ("q1", ⟨4, "good"⟩) (by simp) (by decide)
    simpa using this
  · have := h.2.2.2 [] ("q2", ⟨0, "draft note"⟩) (by simp) (by decide)
    simpa using this

/-! ### Aggregation lemmas -/

/-- When all elements satisfying the predicate are equal, searching from
either end of the list finds the same value. -/
lemma reverse_find?_of_unique (l : List α) (p : α → Bool)
    (huniq : ∀ a ∈ l, ∀ b ∈ l, p a = true → p b = true → a = b) :
    l.reverse.find? p = l.find? p := by
  induction l with
  | nil => rfl
  | cons x xs ih =>
    rw [List.reverse_cons, List.find?_append]
    have hsingle : List.find? p [x] = if p x then some x else none := by
      cases hpx : p x <;> simp [List.find?, hpx]
    by_cases hx : p x = true
    · cases hf : xs.reverse.find? p with
      | none =>
        rw [hsingle, if_pos hx, List.find?_cons_of_pos _ hx]
        rfl
      | some y =>
        have hy : y ∈ xs := List.mem_reverse.mp (List.mem_of_find?_eq_some hf)
        have hpy := List.find?_some hf
        have hyx : y = x := huniq y (List.mem_cons_of_mem x hy) x
          (List.mem_cons_self x xs) hpy hx
        rw [hyx, hsingle, if_pos hx, List.find?_cons_of_pos _ hx]
        rfl
    · rw [hsingle, if_neg hx, Option.or_none, List.find?_cons_of_neg _ hx]
      exact ih (fun a ha b hb hpa hpb =>
        huniq a (List.mem_cons_of_mem x ha) b (List.mem_cons_of_mem x hb) hpa hpb)

/-- A JS-Map lookup over entries built from a row list is the reversed
search for the row. -/
lemma jsMapLookup_map_eq {σ α : Type} (l : List σ) (key : σ → String) (f : σ → α)
    (k : String) :
    jsMapLookup (l.map (fun s => (key s, f s))) k =
      (l.reverse.find? (fun s => key s = k)).map f := by
  unfold jsMapLookup
  rw [← List.map_reverse, List.find?_map]
  have hcomp : ((fun e : String × α => decide (e.1 = k)) ∘ (fun s => (key s, f s))) =
      (fun s => decide (key s = k)) := rfl
  rw [hcomp]
  cases l.reverse.find? (fun s => key s = k) <;> rfl

/-- `filterMap` with an emptiness test is a filter followed by a map. -/
lemma filterMap_if_isEmpty {α β γ : Type} (l : List α) (g : α → List β) (h : α → γ) :
    l.filterMap (fun a => if (g a).isEmpty then none else some (h a)) =
      (l.filter (fun a => ¬ (g a).isEmpty)).map h := by
  induction l with
  | nil => rfl
  | cons x xs ih =>
    by_cases hx : (g x).isEmpty
    · simp only [List.filterMap_cons, List.filter_cons, if_pos hx, ih]
      simp [hx]
    · simp only [List.filterMap_cons, List.filter_cons, if_neg hx, ih]
      simp [hx]

/-- Under unique score keys (the database unique index), the JS-Map search
from the back coincides with the search from the front. -/
lemma scores_lookup_eq (scores : List ClientScore)
    (h : (scores.map (fun s => s.questionId)).Nodup) (k : String) :
    scores.reverse.find? (fun s => s.questionId = k) =
      scores.find? (fun s => s.questionId = k) :=
  reverse_find?_of_unique scores _ (fun a ha b hb hpa hpb => by
    have hak : a.questionId = k := by simpa using hpa
    have hbk : b.questionId = k := by simpa using hpb
    exact List.inj_on_of_nodup_map h ha hb (by rw [hak, hbk]))

/-! ### C2 — overall score is the unweighted mean of section means -/

/-- **C2**: with unique score rows per question (the database unique
index), `getOverallScore` computes exactly the specification's unweighted
mean of per-section means over the sections with at least one scored
question, and is absent when no section has one; in particular sections
scored `(5,3,4)` and `(1,1)` give `(4+1)/2 = 5/2`. -/
theorem overallScore_is_mean_of_section_means :
    (∀ iv : InterviewView, (iv.scores.map (fun s => s.questionId)).Nodup →
      getOverallScore iv = specOverallScore iv) ∧
    getOverallScore
        ⟨[⟨"secA", "Coding", 30⟩, ⟨"secB", "System", 20⟩],
         [⟨"q1", "secA", "Coding"⟩, ⟨"q2", "secA", "Coding"⟩, ⟨"q3", "secA", "Coding"⟩,
          ⟨"q4", "secB", "System"⟩, ⟨"q5", "secB", "System"⟩],
         [⟨"q1", 5, none⟩, ⟨"q2", 3, none⟩, ⟨"q3", 4, none⟩,
          ⟨"q4", 1, none⟩, ⟨"q5", 1, none⟩]⟩ = some (5 / 2) := by
  constructor
  case right =>
    have hsym : getOverallScore
        ⟨[⟨"secA", "Coding", 30⟩, ⟨"secB", "System", 20⟩],
         [⟨"q1", "secA", "Coding"⟩, ⟨"q2", "secA", "Coding"⟩, ⟨"q3", "secA", "Coding"⟩,
          ⟨"q4", "secB", "System"⟩, ⟨"q5", "secB", "System"⟩],
         [⟨"q1", 5, none⟩, ⟨"q2", 3, none⟩, ⟨"q3", 4, none⟩,
          ⟨"q4", 1, none⟩, ⟨"q5", 1, none⟩]⟩ =
        some (listMean [listMean [(5:ℚ), 3, 4], listMean [(1:ℚ), 1]]) := by rfl
    rw [hsym]
    norm_num [listMean]
  case left =>
    intro iv hnodup
    have hinner : ∀ sc : SectionConfigView,
        ((iv.selectedQuestions.filter (fun q => q.sectionId = sc.sectionId)).filterMap
          (fun q => (jsMapLookup (iv.scores.map (fun s => (s.questionId, (s.score : ℚ))))
              q.questionId).bind
            (fun s => if 0 < s then some s else none))) = specSectionScores iv sc := by
      intro sc
      unfold specSectionScores
      apply List.filterMap_congr
      intro q _
      rw [jsMapLookup_map_eq iv.scores (fun s => s.questionId)
        (fun s => ((s.score : ℚ))) q.questionId]
      rw [scores_lookup_eq iv.scores hnodup]
      cases hf : iv.scores.find? (fun s => s.questionId = q.questionId) with
      | none => rfl
      | some s => simp [Int.cast_pos]
    simp only [getOverallScore, specOverallScore]
    by_cases hguard : iv.scores.isEmpty ∨ iv.sectionConfigs.isEmpty ∨
        iv.selectedQuestions.isEmpty
    · rw [if_pos hguard]
      have hempty : iv.sectionConfigs.filter
          (fun sc => ¬ (specSectionScores iv sc).isEmpty) = [] := by
        rcases hguard with hs | hc | hq
        · have hs2 : iv.scores = [] := List.isEmpty_iff.mp hs
          have : ∀ sc, specSectionScores iv sc = [] := by
            intro sc
            unfold specSectionScores
            rw [hs2]
            simp
          refine List.filter_eq_nil_iff.mpr ?_
          intro sc _
          simp [this sc]
        · have hc2 : iv.sectionConfigs = [] := List.isEmpty_iff.mp hc
          rw [hc2]
          rfl
        · have hq2 : iv.selectedQuestions = [] := List.isEmpty_iff.mp hq
          have : ∀ sc, specSectionScores iv sc = [] := by
            intro sc
            unfold specSectionScores
            rw [hq2]
            rfl
          refine List.filter_eq_nil_iff.mpr ?_
          intro sc _
          simp [this sc]
      rw [hempty]
      rfl
    · rw [if_neg hguard]
      have hAvgs : (iv.sectionConfigs.filterMap (fun sc =>
          let sectionScores :=
            (iv.selectedQuestions.filter (fun q => q.sectionId = sc.sectionId)).filterMap
              (fun q => (jsMapLookup (iv.scores.map (fun s => (s.questionId, (s.score : ℚ))))
                  q.questionId).bind
                (fun s => if 0 < s then some s else none))
          if sectionScores.isEmpty then none else some (listMean sectionScores))) =
          (iv.sectionConfigs.filter
            (fun sc => ¬ (specSectionScores iv sc).isEmpty)).map
            (fun sc => listMean (specSectionScores iv sc)) := by
        have hcongr := List.filterMap_congr (l := iv.sectionConfigs)
          (f := fun sc =>
            let sectionScores :=
              (iv.selectedQuestions.filter (fun q => q.sectionId = sc.sectionId)).filterMap
                (fun q => (jsMapLookup (iv.scores.map (fun s => (s.questionId, (s.score : ℚ))))
                    q.questionId).bind
                  (fun s => if 0 < s then some s else none))
            if sectionScores.isEmpty then none else some (listMean sectionScores))
          (g := fun sc =>
            if (specSectionScores iv sc).isEmpty then none
            else some (listMean (specSectionScores iv sc)))
          (fun sc _ => by simp only [hinner sc])
        rw [hcongr]
        exact filterMap_if_isEmpty iv.sectionConfigs (specSectionScores iv)
          (fun sc => listMean (specSectionScores iv sc))
      rw [hAvgs]
      cases hfl : iv.sectionConfigs.filter
          (fun sc => ¬ (specSectionScores iv sc).isEmpty) with
      | nil => rfl
      | cons a as => rfl

/-- Witness for C2: the general conjunct applied to the concrete
two-section interview, with the unique-keys hypothesis discharged. -/
theorem overallScore_is_mean_of_section_means_witness :
    getOverallScore
        ⟨[⟨"secA", "Coding", 30⟩, ⟨"secB", "System", 20⟩],
         [⟨"q1", "secA", "Coding"⟩, ⟨"q2", "secA", "Coding"⟩, ⟨"q3", "secA", "Coding"⟩,
          ⟨"q4", "secB", "System"⟩, ⟨"q5", "secB", "System"⟩],
         [⟨"q1", 5, none⟩, ⟨"q2", 3, none⟩, ⟨"q3", 4, none⟩,
          ⟨"q4", 1, none⟩, ⟨"q5", 1, none⟩]⟩ =
      specOverallScore
        ⟨[⟨"secA", "Coding", 30⟩, ⟨"secB", "System", 20⟩],
         [⟨"q1", "secA", "Coding"⟩, ⟨"q2", "secA", "Coding"⟩, ⟨"q3", "secA", "Coding"⟩,
          ⟨"q4", "secB", "System"⟩, ⟨"q5", "secB", "System"⟩],
         [⟨"q1", 5, none⟩, ⟨"q2", 3, none⟩, ⟨"q3", 4, none⟩,
          ⟨"q4", 1, none⟩, ⟨"q5", 1, none⟩]⟩ :=
  overallScore_is_mean_of_section_means.1 _ (by decide)

/-! ### C4 — the four consuming surfaces -/

/-- Proof-layer canonical per-section score list: a section's selected
questions (matched by `sectionId`), each replaced by its stored score when
one exists.  Every surface's per-section gathering reduces to this. -/
def canonSectionScores (iv : InterviewView) (sc : SectionConfigView) : List ℚ :=
  (iv.selectedQuestions.filter (fun q => q.sectionId = sc.sectionId)).filterMap
    (fun q => (iv.scores.reverse.find? (fun s => s.questionId = q.questionId)).map
      (fun s => ((s.score : ℚ))))

/-- Proof-layer canonical list of per-section averages over the scored
sections, in plan order. -/
def canonSectionAvgs (iv : InterviewView) : List ℚ :=
  iv.sectionConfigs.filterMap (fun sc =>
    if (canonSectionScores iv sc).isEmpty then none
    else some (listMean (canonSectionScores iv sc)))

/-- A mapped list is empty exactly when the original is. -/
lemma isEmpty_map {α β : Type} (l : List α) (f : α → β) :
    (l.map f).isEmpty = l.isEmpty := by
  cases l <;> rfl

/-- The Excel export's per-section averages are the canonical ones, as long
as section names determine section ids among the rows involved (the
`Section_name_key` unique index). -/
lemma excelSectionAvgs_eq_canon (iv : InterviewView)
    (hname : ∀ q ∈ iv.selectedQuestions, ∀ sc ∈ iv.sectionConfigs,
      (q.sectionName = sc.sectionName ↔ q.sectionId = sc.sectionId)) :
    ExportService.excelSectionAvgs iv = canonSectionAvgs iv := by
  unfold ExportService.excelSectionAvgs canonSectionAvgs
  apply List.filterMap_congr
  intro sc hsc
  have hfilter : iv.selectedQuestions.filter (fun q => q.sectionName = sc.sectionName) =
      iv.selectedQuestions.filter (fun q => q.sectionId = sc.sectionId) :=
    List.filter_congr (fun q hq => decide_eq_decide.mpr (hname q hq sc hsc))
  have hlookup : ∀ k, jsMapLookup (iv.scores.map (fun s => (s.questionId, s))) k =
      iv.scores.reverse.find? (fun s => s.questionId = k) := by
    intro k
    have h := jsMapLookup_map_eq iv.scores (fun s => s.questionId) (fun s => s) k
    rw [h]
    cases iv.scores.reverse.find? (fun s => s.questionId = k) <;> rfl
  have hmap : ((iv.selectedQuestions.filter (fun q => q.sectionName = sc.sectionName)).filterMap
        (fun q => jsMapLookup (iv.scores.map (fun s => (s.questionId, s))) q.questionId)).map
        (fun s => ((s.score : ℚ))) = canonSectionScores iv sc := by
    rw [hfilter, List.map_filterMap]
    unfold canonSectionScores
    apply List.filterMap_congr
    intro q _
    rw [hlookup q.questionId]
  have hempty : ((iv.selectedQuestions.filter (fun q => q.sectionName = sc.sectionName)).filterMap
        (fun q => jsMapLookup (iv.scores.map (fun s => (s.questionId, s))) q.questionId)).isEmpty =
      (canonSectionScores iv sc).isEmpty := by
    rw [← hmap, isEmpty_map]
  simp only []
  rw [hempty, hmap]

/-- The list page's per-section averages are the canonical ones: the `> 0`
re-filter drops nothing because controller-validated scores are positive. -/
lemma listSectionAvgs_eq_canon (iv : InterviewView)
    (hpos : ∀ s ∈ iv.scores, 0 < s.score) :
    (iv.sectionConfigs.filterMap (fun sc =>
      let sectionScores :=
        (iv.selectedQuestions.filter (fun q => q.sectionId = sc.sectionId)).filterMap
          (fun q => (jsMapLookup (iv.scores.map (fun s => (s.questionId, (s.score : ℚ))))
              q.questionId).bind
            (fun s => if 0 < s then some s else none))
      if sectionScores.isEmpty then none else some (listMean sectionScores))) =
      canonSectionAvgs iv := by
  unfold canonSectionAvgs
  apply List.filterMap_congr
  intro sc _
  have hinner : ((iv.selectedQuestions.filter (fun q => q.sectionId = sc.sectionId)).filterMap
      (fun q => (jsMapLookup (iv.scores.map (fun s => (s.questionId, (s.score : ℚ))))
          q.questionId).bind
        (fun s => if 0 < s then some s else none))) = canonSectionScores iv sc := by
    unfold canonSectionScores
    apply List.filterMap_congr
    intro q _
    rw [jsMapLookup_map_eq iv.scores (fun s => s.questionId)
      (fun s => ((s.score : ℚ))) q.questionId]
    cases hf : iv.scores.reverse.find? (fun s => s.questionId = q.questionId) with
    | none => rfl
    | some s =>
      have hs : s ∈ iv.scores := List.mem_reverse.mp (List.mem_of_find?_eq_some hf)
      have : (0 : ℚ) < ((s.score : ℚ)) := by exact_mod_cast hpos s hs
      simp [this]
  simp only [hinner]

/-- The results page's per-section cells are the canonical averages, passed
through `toFixed(1)`. -/
lemma resultsSectionAvgs_eq_canon (iv : InterviewView) :
    resultsSectionAvgs iv = iv.sectionConfigs.map (fun sc =>
      if (canonSectionScores iv sc).isEmpty then none
      else some (toFixed1 (listMean (canonSectionScores iv sc)))) := by
  unfold resultsSectionAvgs
  apply List.map_congr_left
  intro sc _
  have hlookup : ∀ k, jsMapLookup (iv.scores.map (fun s => (s.questionId, s))) k =
      iv.scores.reverse.find? (fun s => s.questionId = k) := by
    intro k
    have h := jsMapLookup_map_eq iv.scores (fun s => s.questionId) (fun s => s) k
    rw [h]
    cases iv.scores.reverse.find? (fun s => s.questionId = k) <;> rfl
  have hmap : ((iv.selectedQuestions.filter (fun q => q.sectionId = sc.sectionId)).filterMap
        (fun q => jsMapLookup (iv.scores.map (fun s => (s.questionId, s))) q.questionId)).map
        (fun s => ((s.score : ℚ))) = canonSectionScores iv sc := by
    rw [List.map_filterMap]
    unfold canonSectionScores
    apply List.filterMap_congr
    intro q _
    rw [hlookup q.questionId]
  have hempty : ((iv.selectedQuestions.filter (fun q => q.sectionId = sc.sectionId)).filterMap
        (fun q => jsMapLookup (iv.scores.map (fun s => (s.questionId, s))) q.questionId)).isEmpty =
      (canonSectionScores iv sc).isEmpty := by
    rw [← hmap, isEmpty_map]
  simp only []
  rw [hempty, hmap]

/-- When the early-return guard of the list page fires, no section has any
gathered score. -/
lemma canonSectionAvgs_nil_of_guard (iv : InterviewView)
    (hguard : iv.scores.isEmpty ∨ iv.sectionConfigs.isEmpty ∨
      iv.selectedQuestions.isEmpty) :
    canonSectionAvgs iv = [] := by
  unfold canonSectionAvgs
  rcases hguard with hs | hc | hq
  · have hs2 : iv.scores = [] := List.isEmpty_iff.mp hs
    have hcanon : ∀ sc, canonSectionScores iv sc = [] := by
      intro sc
      unfold canonSectionScores
      rw [hs2]
      simp
    refine List.filterMap_eq_nil_iff.mpr ?_
    intro sc _
    simp [hcanon sc]
  · rw [List.isEmpty_iff.mp hc]
    rfl
  · have hq2 : iv.selectedQuestions = [] := List.isEmpty_iff.mp hq
    have hcanon : ∀ sc, canonSectionScores iv sc = [] := by
      intro sc
      unfold canonSectionScores
      rw [hq2]
      rfl
    refine List.filterMap_eq_nil_iff.mpr ?_
    intro sc _
    simp [hcanon sc]

/-- **C4 amended**: under unique section names (the `Section_name_key`
index, giving name-matching = id-matching) and controller-validated
positive scores, the interview list view, the Excel export and the PDF
export compute the same overall score, and the results page's per-section
cells are the common canonical per-section averages rounded to one decimal
— its overall, computed from those rounded values, is the part that can
deviate. -/
theorem aggregation_surfaces_agree (iv : InterviewView)
    (hname : ∀ q ∈ iv.selectedQuestions, ∀ sc ∈ iv.sectionConfigs,
      (q.sectionName = sc.sectionName ↔ q.sectionId = sc.sectionId))
    (hpos : ∀ s ∈ iv.scores, 0 < s.score) :
    getOverallScore iv = ExportService.excelOverallAvg iv ∧
    ExportService.excelOverallAvg iv = ExportService.pdfOverallAvg iv ∧
    (resultsSectionAvgs iv).filterMap id =
      (ExportService.excelSectionAvgs iv).map toFixed1 := by
  refine ⟨?_, ?_, ?_⟩
  · simp only [getOverallScore, ExportService.excelOverallAvg]
    rw [excelSectionAvgs_eq_canon iv hname]
    by_cases hguard : iv.scores.isEmpty ∨ iv.sectionConfigs.isEmpty ∨
        iv.selectedQuestions.isEmpty
    · rw [if_pos hguard, canonSectionAvgs_nil_of_guard iv hguard]
      rfl
    · rw [if_neg hguard, listSectionAvgs_eq_canon iv hpos]
  · rfl
  · rw [resultsSectionAvgs_eq_canon iv, excelSectionAvgs_eq_canon iv hname]
    unfold canonSectionAvgs
    rw [List.map_filterMap]
    rw [List.filterMap_map]
    apply List.filterMap_congr
    intro sc _
    by_cases hc : (canonSectionScores iv sc).isEmpty
    · simp [Function.comp, hc]
    · simp [Function.comp, hc]

/-- Witness for the amended C4 at a concrete two-section interview. -/
theorem aggregation_surfaces_agree_witness :
    getOverallScore
        ⟨[⟨"secA", "Coding", 30⟩, ⟨"secB", "System", 20⟩],
         [⟨"q1", "secA", "Coding"⟩, ⟨"q2", "secA", "Coding"⟩,
          ⟨"q3", "secA", "Coding"⟩, ⟨"q4", "secB", "System"⟩],
         [⟨"q1", 5, none⟩, ⟨"q2", 5, none⟩, ⟨"q3", 4, none⟩, ⟨"q4", 1, none⟩]⟩ =
      ExportService.excelOverallAvg
        ⟨[⟨"secA", "Coding", 30⟩, ⟨"secB", "System", 20⟩],
         [⟨"q1", "secA", "Coding"⟩, ⟨"q2", "secA", "Coding"⟩,
          ⟨"q3", "secA", "Coding"⟩, ⟨"q4", "secB", "System"⟩],
         [⟨"q1", 5, none⟩, ⟨"q2", 5, none⟩, ⟨"q3", 4, none⟩, ⟨"q4", 1, none⟩]⟩ ∧
    ExportService.excelOverallAvg
        ⟨[⟨"secA", "Coding", 30⟩, ⟨"secB", "System", 20⟩],
         [⟨"q1", "secA", "Coding"⟩, ⟨"q2", "secA", "Coding"⟩,
          ⟨"q3", "secA", "Coding"⟩, ⟨"q4", "secB", "System"⟩],
         [⟨"q1", 5, none⟩, ⟨"q2", 5, none⟩, ⟨"q3", 4, none⟩, ⟨"q4", 1, none⟩]⟩ =
      ExportService.pdfOverallAvg
        ⟨[⟨"secA", "Coding", 30⟩, ⟨"secB", "System", 20⟩],
         [⟨"q1", "secA", "Coding"⟩, ⟨"q2", "secA", "Coding"⟩,
          ⟨"q3", "secA", "Coding"⟩, ⟨"q4", "secB", "System"⟩],
         [⟨"q1", 5, none⟩, ⟨"q2", 5, none⟩, ⟨"q3", 4, none⟩, ⟨"q4", 1, none⟩]⟩ ∧
    (resultsSectionAvgs
        ⟨[⟨"secA", "Coding", 30⟩, ⟨"secB", "System", 20⟩],
         [⟨"q1", "secA", "Coding"⟩, ⟨"q2", "secA", "Coding"⟩,
          ⟨"q3", "secA", "Coding"⟩, ⟨"q4", "secB", "System"⟩],
         [⟨"q1", 5, none⟩, ⟨"q2", 5, none⟩, ⟨"q3", 4, none⟩, ⟨"q4", 1, none⟩]⟩).filterMap id =
      (ExportService.excelSectionAvgs
        ⟨[⟨"secA", "Coding", 30⟩, ⟨"secB", "System", 20⟩],
         [⟨"q1", "secA", "Coding"⟩, ⟨"q2", "secA", "Coding"⟩,
          ⟨"q3", "secA", "Coding"⟩, ⟨"q4", "secB", "System"⟩],
         [⟨"q1", 5, none⟩, ⟨"q2", 5, none⟩, ⟨"q3", 4, none⟩, ⟨"q4", 1, none⟩]⟩).map toFixed1 :=
  aggregation_surfaces_agree _ (by decide) (by decide)

/-- **C4 counterexample**: with section A scored `(5,5,4)` (average `14/3`)
and section B scored `(1)`, the results page computes
`toFixed1((4.7+1)/2) = 2.9` while the Excel/PDF exports and the list view
compute `(14/3+1)/2 = 17/6 ≈ 2.83` — the four surfaces do not all agree. -/
theorem results_overall_differs_cex :
    resultsOverallScore
        ⟨[⟨"secA", "Coding", 30⟩, ⟨"secB", "System", 20⟩],
         [⟨"q1", "secA", "Coding"⟩, ⟨"q2", "secA", "Coding"⟩,
          ⟨"q3", "secA", "Coding"⟩, ⟨"q4", "secB", "System"⟩],
         [⟨"q1", 5, none⟩, ⟨"q2", 5, none⟩, ⟨"q3", 4, none⟩, ⟨"q4", 1, none⟩]⟩ =
      some (29 / 10) ∧
    ExportService.excelOverallAvg
        ⟨[⟨"secA", "Coding", 30⟩, ⟨"secB", "System", 20⟩],
         [⟨"q1", "secA", "Coding"⟩, ⟨"q2", "secA", "Coding"⟩,
          ⟨"q3", "secA", "Coding"⟩, ⟨"q4", "secB", "System"⟩],
         [⟨"q1", 5, none⟩, ⟨"q2", 5, none⟩, ⟨"q3", 4, none⟩, ⟨"q4", 1, none⟩]⟩ =
      some (17 / 6) ∧
    getOverallScore
        ⟨[⟨"secA", "Coding", 30⟩, ⟨"secB", "System", 20⟩],
         [⟨"q1", "secA", "Coding"⟩, ⟨"q2", "secA", "Coding"⟩,
          ⟨"q3", "secA", "Coding"⟩, ⟨"q4", "secB", "System"⟩],
         [⟨"q1", 5, none⟩, ⟨"q2", 5, none⟩, ⟨"q3", 4, none⟩, ⟨"q4", 1, none⟩]⟩ =
      some (17 / 6) ∧
    resultsOverallScore
        ⟨[⟨"secA", "Coding", 30⟩, ⟨"secB", "System", 20⟩],
         [⟨"q1", "secA", "Coding"⟩, ⟨"q2", "secA", "Coding"⟩,
          ⟨"q3", "secA", "Coding"⟩, ⟨"q4", "secB", "System"⟩],
         [⟨"q1", 5, none⟩, ⟨"q2", 5, none⟩, ⟨"q3", 4, none⟩, ⟨"q4", 1, none⟩]⟩ ≠
      getOverallScore
        ⟨[⟨"secA", "Coding", 30⟩, ⟨"secB", "System", 20⟩],
         [⟨"q1", "secA", "Coding"⟩, ⟨"q2", "secA", "Coding"⟩,
          ⟨"q3", "secA", "Coding"⟩, ⟨"q4", "secB", "System"⟩],
         [⟨"q1", 5, none⟩, ⟨"q2", 5, none⟩, ⟨"q3", 4, none⟩, ⟨"q4", 1, none⟩]⟩ := by
  have hr : resultsOverallScore
      ⟨[⟨"secA", "Coding", 30⟩, ⟨"secB", "System", 20⟩],
       [⟨"q1", "secA", "Coding"⟩, ⟨"q2", "secA", "Coding"⟩,
        ⟨"q3", "secA", "Coding"⟩, ⟨"q4", "secB", "System"⟩],
       [⟨"q1", 5, none⟩, ⟨"q2", 5, none⟩, ⟨"q3", 4, none⟩, ⟨"q4", 1, none⟩]⟩ =
      some (toFixed1 (listMean
        [toFixed1 (listMean [((5 : ℤ) : ℚ), ((5 : ℤ) : ℚ), ((4 : ℤ) : ℚ)]),
         toFixed1 (listMean [((1 : ℤ) : ℚ)])])) := rfl
  have he : ExportService.excelOverallAvg
      ⟨[⟨"secA", "Coding", 30⟩, ⟨"secB", "System", 20⟩],
       [⟨"q1", "secA", "Coding"⟩, ⟨"q2", "secA", "Coding"⟩,
        ⟨"q3", "secA", "Coding"⟩, ⟨"q4", "secB", "System"⟩],
       [⟨"q1", 5, none⟩, ⟨"q2", 5, none⟩, ⟨"q3", 4, none⟩, ⟨"q4", 1, none⟩]⟩ =
      some (listMean
        [listMean [((5 : ℤ) : ℚ), ((5 : ℤ) : ℚ), ((4 : ℤ) : ℚ)],
         listMean [((1 : ℤ) : ℚ)]]) := rfl
  have hg : getOverallScore
      ⟨[⟨"secA", "Coding", 30⟩, ⟨"secB", "System", 20⟩],
       [⟨"q1", "secA", "Coding"⟩, ⟨"q2", "secA", "Coding"⟩,
        ⟨"q3", "secA", "Coding"⟩, ⟨"q4", "secB", "System"⟩],
       [⟨"q1", 5, none⟩, ⟨"q2", 5, none⟩, ⟨"q3", 4, none⟩, ⟨"q4", 1, none⟩]⟩ =
      some (listMean
        [listMean [((5 : ℤ) : ℚ), ((5 : ℤ) : ℚ), ((4 : ℤ) : ℚ)],
         listMean [((1 : ℤ) : ℚ)]]) := rfl
  have hval1 : toFixed1 (listMean
      [toFixed1 (listMean [((5 : ℤ) : ℚ), ((5 : ℤ) : ℚ), ((4 : ℤ) : ℚ)]),
       toFixed1 (listMean [((1 : ℤ) : ℚ)])]) = 29 / 10 := by
    norm_num [toFixed1, listMean, round_eq]
  have hval2 : listMean
      [listMean [((5 : ℤ) : ℚ), ((5 : ℤ) : ℚ), ((4 : ℤ) : ℚ)],
       listMean [((1 : ℤ) : ℚ)]] = 17 / 6 := by
    norm_num [listMean]
  refine ⟨by rw [hr, hval1], by rw [he, hval2], by rw [hg, hval2], ?_⟩
  rw [hr, hg, hval1, hval2]
  intro hcontr
  have : (29 / 10 : ℚ) = 17 / 6 := Option.some_injective _ hcontr
  norm_num at this

end Starcamp
